import Mathlib

/-
Verification of the Veo batch video-generation queue.

Shallow embedding of the core of the application:
  App.tsx          — job store, scheduler tick, error classification
  types.ts         — Job record and its enumerations
  geminiService.ts — request construction and the success-path result string
  JobForm.tsx      — construction of a freshly submitted job
  JobQueue.tsx     — the UI-boundary guard on job removal

The asynchronous scheduler is modelled as a transition system: each
transition is one atomic effect that the JavaScript code applies to the
React state (a tick's synchronous phase, a progress callback, the
success or failure continuation of a launched generation, and the user
actions add / remove / duplicate / toggle).  `inflight` records the ids
of jobs whose `generateVideoForJob` call has been issued but has not
yet resolved; a continuation step requires its id to be in flight,
which is exactly the situation in which the corresponding JavaScript
callback can run.
-/

namespace VeoBatch

/-- JobStatus from types.ts (the PENDING member is declared there but never
produced by the application). -/
inductive JobStatus where
  | idle
  | pending
  | processing
  | completed
  | failed
deriving DecidableEq

/-- InputType from types.ts. -/
inductive InputType where
  | text
  | image
deriving DecidableEq

/-- VeoModel from types.ts. -/
inductive VeoModel where
  | fast
  | quality
deriving DecidableEq

/-- The model identifier string carried by each VeoModel member. -/
def VeoModel.str : VeoModel → String
  | VeoModel.fast => "veo-3.1-fast-generate-preview"
  | VeoModel.quality => "veo-3.1-generate-preview"

/-- The two aspect-ratio literals of the Job interface. -/
inductive Aspect where
  | a16x9
  | a9x16
deriving DecidableEq

/-- The string value of an aspect-ratio literal. -/
def Aspect.str : Aspect → String
  | Aspect.a16x9 => "16:9"
  | Aspect.a9x16 => "9:16"

/-- The two resolution literals of the Job interface. -/
inductive Resolution where
  | r720p
  | r1080p
deriving DecidableEq

/-- The string value of a resolution literal. -/
def Resolution.str : Resolution → String
  | Resolution.r720p => "720p"
  | Resolution.r1080p => "1080p"

/-- An uploaded image file, reduced to what the service reads from it:
its base64 content (the result of fileToBas64) and its mime type
(File.type).  The display name is kept for completeness. -/
structure ImageFile where
  base64Data : String
  mimeType : String
  fname : String
deriving DecidableEq

/-- The Job record of types.ts.  The field written `aspectRatio` in the
source is called `aspect` here, and machine timestamps are Nat. -/
structure Job where
  id : String
  createdAt : Nat
  status : JobStatus
  prompt : String
  inputType : InputType
  model : VeoModel
  aspect : Aspect
  resolution : Resolution
  imageFile : Option ImageFile
  videoUri : Option String
  error : Option String
  progress : Option Nat
  startTime : Option Nat
  progressMessage : Option String
deriving DecidableEq

/-- MAX_CONCURRENT_JOBS from App.tsx. -/
def MAX_CONCURRENT_JOBS : Nat := 4

/-- The React state of App.tsx, together with the multiset of in-flight
generation calls (ids passed to generateVideoForJob whose promise has
not yet settled). -/
structure AppState where
  jobs : List Job
  apiKeyReady : Bool
  isQueueRunning : Bool
  inflight : List String
deriving DecidableEq

/-- The initial React state: no jobs, no key selected, queue not running. -/
def initialState : AppState :=
  { jobs := [], apiKeyReady := false, isQueueRunning := false, inflight := [] }

/-- addJob from App.tsx: append to the jobs array. -/
def addJob (s : AppState) (j : Job) : AppState :=
  { s with jobs := s.jobs ++ [j] }

/-- removeJob from App.tsx: drop every job whose id matches. -/
def removeJob (s : AppState) (i : String) : AppState :=
  { s with jobs := s.jobs.filter (fun j => decide (j.id ≠ i)) }

/-- The partial-Job update objects the application ever passes to
updateJob: the mutable lifecycle fields.  A some-v entry means the
update object carries that field with value v (v itself being the new
Option value of the field); none means the field is absent from the
update object and is left untouched by the spread merge.  The
identifier and the immutable generation parameters are never part of
an update in the source. -/
structure JobUpdate where
  status : Option JobStatus := none
  videoUri : Option (Option String) := none
  error : Option (Option String) := none
  progress : Option (Option Nat) := none
  startTime : Option (Option Nat) := none
  progressMessage : Option (Option String) := none
deriving DecidableEq

/-- The spread merge of updateJob's body. -/
def mergeJob (j : Job) (u : JobUpdate) : Job :=
  { j with
    status := u.status.getD j.status,
    videoUri := u.videoUri.getD j.videoUri,
    error := u.error.getD j.error,
    progress := u.progress.getD j.progress,
    startTime := u.startTime.getD j.startTime,
    progressMessage := u.progressMessage.getD j.progressMessage }

/-- The per-element function of updateJob's map: merge into a job whose
id matches, leave any other job unchanged. -/
def updFn (i : String) (u : JobUpdate) (j : Job) : Job :=
  if j.id = i then mergeJob j u else j

/-- updateJob from App.tsx: map over the array, merging into the jobs
whose id matches and leaving every other job unchanged. -/
def updateJob (s : AppState) (i : String) (u : JobUpdate) : AppState :=
  { s with jobs := s.jobs.map (updFn i u) }

/-- duplicateJob's new record (App.tsx): spread the old job, then
override the identifier, timestamp, status and the derived fields. -/
def duplicatedJob (job : Job) (newId : String) (now : Nat) : Job :=
  { job with
    id := newId,
    createdAt := now,
    status := JobStatus.idle,
    error := none,
    videoUri := none,
    progressMessage := none,
    startTime := none }

/-- duplicateJob from App.tsx: append the duplicated record. -/
def duplicateJob (s : AppState) (job : Job) (newId : String) (now : Nat) : AppState :=
  { s with jobs := s.jobs ++ [duplicatedJob job newId now] }

/-- The parameters a user fills in on JobForm. -/
structure JobParams where
  prompt : String
  inputType : InputType
  model : VeoModel
  aspect : Aspect
  imageFile : Option ImageFile
deriving DecidableEq

/-- The job record built by JobForm's handleSubmit for each submitted
copy: status IDLE, resolution fixed at 720p, all derived fields absent. -/
def mkNewJob (p : JobParams) (newId : String) (now : Nat) : Job :=
  { id := newId,
    createdAt := now,
    status := JobStatus.idle,
    prompt := p.prompt,
    inputType := p.inputType,
    model := p.model,
    aspect := p.aspect,
    resolution := Resolution.r720p,
    imageFile := p.imageFile,
    videoUri := none,
    error := none,
    progress := none,
    startTime := none,
    progressMessage := none }

/-- JobQueue.tsx renders the remove button only for these statuses. -/
def canRemove (st : JobStatus) : Bool :=
  decide (st = JobStatus.idle) || decide (st = JobStatus.failed)
    || decide (st = JobStatus.completed)

/-- The remove action as reachable through the UI: JobQueue shows a
delete button for a listed job exactly when canRemove holds of its
status, and the button invokes App.removeJob with the job's id. -/
def uiRemoveJob (s : AppState) (i : String) : AppState :=
  match s.jobs.find? (fun j => decide (j.id = i)) with
  | some j => if canRemove j.status then removeJob s i else s
  | none => s

/-- The number of jobs currently PROCESSING (processQueue step 1). -/
def processingCount (l : List Job) : Nat :=
  (l.filter (fun j => decide (j.status = JobStatus.processing))).length

/-- jobs.find of the first IDLE job (processQueue step 2). -/
def findIdle (l : List Job) : Option Job :=
  l.find? (fun j => decide (j.status = JobStatus.idle))

/-- The update object of processQueue step 3. -/
def launchUpdate (now : Nat) : JobUpdate :=
  { status := some JobStatus.processing,
    startTime := some (some now),
    progressMessage := some (some "Initializing...") }

/-- The synchronous phase of one processQueue invocation: nothing
happens unless the queue is running and a key is ready (the effect is
not even installed otherwise); then the concurrency check, the search
for the first idle job, and its atomic reservation as PROCESSING. -/
def tickLaunch (s : AppState) (now : Nat) : AppState :=
  if s.isQueueRunning && s.apiKeyReady then
    if MAX_CONCURRENT_JOBS ≤ processingCount s.jobs then s
    else
      match findIdle s.jobs with
      | none => s
      | some j =>
        { updateJob s j.id (launchUpdate now) with inflight := j.id :: s.inflight }
  else s

/-- The update object of a progress callback. -/
def progressUpdate (msg : String) : JobUpdate :=
  { progressMessage := some (some msg) }

/-- Whether `pat` occurs at the start of a character list. -/
def matchesAt : List Char → List Char → Bool
  | [], _ => true
  | _ :: _, [] => false
  | p :: ps, c :: cs => decide (p = c) && matchesAt ps cs

/-- Whether `pat` occurs anywhere in a character list. -/
def hasSubstring (pat : List Char) : List Char → Bool
  | [] => matchesAt pat []
  | c :: cs => matchesAt pat (c :: cs) || hasSubstring pat cs

/-- JavaScript's case-sensitive String.includes. -/
def strIncludes (s pat : String) : Bool :=
  hasSubstring pat.toList s.toList

/-- The first failure signature tested in processQueue's catch block. -/
def AUTH_SIG1 : String := "Requested entity was not found"

/-- The second failure signature tested in processQueue's catch block. -/
def AUTH_SIG2 : String := "API key"

/-- The rewritten user-facing credential message of App.tsx. -/
def AUTH_REWRITE_MSG : String := "API Key Invalid or Expired. Please select key again."

/-- The message generateVideoForJob throws when no credential is
available (geminiService.ts). -/
def MISSING_KEY_MSG : String := "API Key not found. Please select a key."

/-- The catch block's classification of an error message as an API-key
error: a case-sensitive substring test against the two signatures. -/
def isAuthError (msg : String) : Bool :=
  strIncludes msg AUTH_SIG1 || strIncludes msg AUTH_SIG2

/-- error.message with the catch block's fallback: an absent or empty
message becomes the placeholder. -/
def effectiveMessage (raw : String) : String :=
  if raw = "" then "Unknown error" else raw

/-- The success path returned by generateVideoForJob, as stored by
processQueue: the remote video URI with the current key appended. -/
def successResult (videoUri apiKey : String) : String :=
  videoUri ++ "&key=" ++ apiKey

/-- The resolution of a fulfilled generateVideoForJob promise:
the job goes PROCESSING to COMPLETED, its videoUri is set, and its
in-flight call is retired. -/
def finishSuccess (s : AppState) (i : String) (res : String) : AppState :=
  updateJob { s with inflight := s.inflight.erase i } i
    { status := some JobStatus.completed,
      videoUri := some (some res),
      progressMessage := some (some "Completed") }

/-- The resolution of a rejected generateVideoForJob promise: the catch
block of processQueue.  When the (fallback-substituted) message matches
an API-key signature, the key readiness and the running flag are
cleared and the message is rewritten; either way the job goes
PROCESSING to FAILED with the final message. -/
def finishFailure (s : AppState) (i : String) (raw : String) : AppState :=
  if isAuthError (effectiveMessage raw) then
    updateJob
      { s with inflight := s.inflight.erase i,
               apiKeyReady := false, isQueueRunning := false } i
      { status := some JobStatus.failed, error := some (some AUTH_REWRITE_MSG) }
  else
    updateJob { s with inflight := s.inflight.erase i } i
      { status := some JobStatus.failed, error := some (some (effectiveMessage raw)) }

/-- The request object handed to ai.models.generateVideos, flattened:
target model identifier, optional prompt, optional image bytes and mime
type, and the common config of geminiService.ts. -/
structure GenRequest where
  model : String
  prompt : Option String
  imageBytes : Option String
  imageMime : Option String
  numberOfVideos : Nat
  aspect : String
  resolution : String
deriving DecidableEq

/-- The request generateVideoForJob builds from a job: the image branch
is taken when inputType is image and a file is present; the prompt is
dropped there when empty (job.prompt short-circuited to undefined); the
config always carries the job's aspect ratio and the constant "720p". -/
def buildGenRequest (job : Job) : GenRequest :=
  match job.inputType, job.imageFile with
  | InputType.image, some f =>
    { model := job.model.str,
      prompt := if job.prompt = "" then none else some job.prompt,
      imageBytes := some f.base64Data,
      imageMime := some f.mimeType,
      numberOfVideos := 1,
      aspect := job.aspect.str,
      resolution := "720p" }
  | _, _ =>
    { model := job.model.str,
      prompt := some job.prompt,
      imageBytes := none,
      imageMime := none,
      numberOfVideos := 1,
      aspect := job.aspect.str,
      resolution := "720p" }

/-- One atomic effect on the React state.  User actions supply fresh
uuids, modelled as the hypothesis that the new id is not already in the
store; continuation steps require their id to be in flight. -/
inductive Step : AppState → AppState → Prop where
  | apiKeySelected (s : AppState) :
      Step s { s with apiKeyReady := true }
  | queueToggled (s : AppState) :
      Step s { s with isQueueRunning := !s.isQueueRunning }
  | jobAdded (s : AppState) (p : JobParams) (newId : String) (now : Nat)
      (hfresh : newId ∉ s.jobs.map Job.id) :
      Step s (addJob s (mkNewJob p newId now))
  | jobRemoved (s : AppState) (i : String) :
      Step s (uiRemoveJob s i)
  | jobDuplicated (s : AppState) (j : Job) (hj : j ∈ s.jobs)
      (newId : String) (now : Nat)
      (hfresh : newId ∉ s.jobs.map Job.id) :
      Step s (duplicateJob s j newId now)
  | tick (s : AppState) (now : Nat) :
      Step s (tickLaunch s now)
  | progressReported (s : AppState) (i : String) (msg : String)
      (h : i ∈ s.inflight) :
      Step s (updateJob s i (progressUpdate msg))
  | generateSucceeded (s : AppState) (i : String) (remoteUri apiKey : String)
      (h : i ∈ s.inflight) :
      Step s (finishSuccess s i (successResult remoteUri apiKey))
  | generateFailed (s : AppState) (i : String) (raw : String)
      (h : i ∈ s.inflight) :
      Step s (finishFailure s i raw)

/-- States reachable from the initial React state. -/
inductive Reachable : AppState → Prop where
  | init : Reachable initialState
  | step {s s' : AppState} : Reachable s → Step s s' → Reachable s'

/-- The store invariant on a single job: the mutually exclusive result
fields are governed by the status, and the unused PENDING status never
occurs. -/
def JobOk (j : Job) : Prop :=
  (j.status = JobStatus.idle → j.videoUri = none ∧ j.error = none) ∧
  (j.status = JobStatus.processing → j.videoUri = none ∧ j.error = none) ∧
  (j.status = JobStatus.completed → j.videoUri.isSome ∧ j.error = none) ∧
  (j.status = JobStatus.failed → j.videoUri = none ∧ j.error.isSome) ∧
  j.status ≠ JobStatus.pending

/-- The global invariant: every job is well formed, ids are unique,
in-flight call ids are distinct and owned by PROCESSING jobs, and the
concurrency cap holds. -/
def Inv (s : AppState) : Prop :=
  (∀ j ∈ s.jobs, JobOk j) ∧
  (s.jobs.map Job.id).Nodup ∧
  s.inflight.Nodup ∧
  (∀ i ∈ s.inflight, ∃ j, j ∈ s.jobs ∧ j.id = i ∧ j.status = JobStatus.processing) ∧
  processingCount s.jobs ≤ MAX_CONCURRENT_JOBS

lemma mergeJob_id (j : Job) (u : JobUpdate) : (mergeJob j u).id = j.id := rfl

lemma updFn_id (i : String) (u : JobUpdate) (j : Job) : (updFn i u j).id = j.id := by
  unfold updFn
  split <;> rfl

lemma updFn_of_ne (i : String) (u : JobUpdate) (j : Job) (h : j.id ≠ i) :
    updFn i u j = j := by
  unfold updFn
  simp [h]

lemma updFn_of_eq (i : String) (u : JobUpdate) (j : Job) (h : j.id = i) :
    updFn i u j = mergeJob j u := by
  unfold updFn
  simp [h]

lemma map_updFn_ids (l : List Job) (i : String) (u : JobUpdate) :
    (l.map (updFn i u)).map Job.id = l.map Job.id := by
  rw [List.map_map]
  exact List.map_congr_left (fun a _ => updFn_id i u a)

lemma map_updFn_eq_self (l : List Job) (i : String) (u : JobUpdate)
    (h : ∀ j ∈ l, j.id ≠ i) : l.map (updFn i u) = l := by
  have : l.map (updFn i u) = l.map id :=
    List.map_congr_left (fun a ha => updFn_of_ne i u a (h a ha))
  rw [this, List.map_id]

lemma nodup_get_unique {α : Type} :
    ∀ (l : List α), l.Nodup → ∀ (k m : Nat) (x : α),
      l[k]? = some x → l[m]? = some x → k = m := by
  intro l
  induction l with
  | nil =>
    intro _ k m x hk
    simp at hk
  | cons a t ih =>
    intro h k m x hk hm
    rw [List.nodup_cons] at h
    cases k with
    | zero =>
      cases m with
      | zero => rfl
      | succ m =>
        simp at hk
        subst hk
        simp at hm
        exact absurd (List.getElem?_mem hm) h.1
    | succ k =>
      cases m with
      | zero =>
        simp at hm
        subst hm
        simp at hk
        exact absurd (List.getElem?_mem hk) h.1
      | succ m =>
        simp only [List.getElem?_cons_succ] at hk hm
        exact congrArg Nat.succ (ih h.2 k m x hk hm)

lemma nodup_id_unique (l : List Job) (h : (l.map Job.id).Nodup) :
    ∀ a ∈ l, ∀ b ∈ l, a.id = b.id → a = b := by
  induction l with
  | nil => simp
  | cons x t ih =>
    rw [List.map_cons, List.nodup_cons] at h
    intro a ha b hb hab
    rcases List.mem_cons.mp ha with rfl | hat
    · rcases List.mem_cons.mp hb with rfl | hbt
      · rfl
      · exact absurd (hab ▸ List.mem_map_of_mem Job.id hbt) h.1
    · rcases List.mem_cons.mp hb with rfl | hbt
      · exact absurd (hab ▸ List.mem_map_of_mem Job.id hat) h.1
      · exact ih h.2 a hat b hbt hab

lemma find_id_of_mem (l : List Job) (h : (l.map Job.id).Nodup) (j : Job)
    (hj : j ∈ l) : l.find? (fun x => decide (x.id = j.id)) = some j := by
  induction l with
  | nil => simp at hj
  | cons a t ih =>
    rw [List.map_cons, List.nodup_cons] at h
    rcases List.mem_cons.mp hj with rfl | hjt
    · simp [List.find?]
    · have hne : ¬ (a.id = j.id) := by
        intro he
        exact h.1 (he ▸ List.mem_map_of_mem Job.id hjt)
      rw [List.find?_cons]
      simp only [hne, decide_eq_false, Bool.false_eq_true, if_false]
      exact ih h.2 hjt

lemma findIdle_cons (a : Job) (t : List Job) :
    findIdle (a :: t) =
      if a.status = JobStatus.idle then some a else findIdle t := by
  by_cases ha : a.status = JobStatus.idle <;> simp [findIdle, List.find?_cons, ha]

lemma findIdle_mem {l : List Job} {j : Job} (h : findIdle l = some j) : j ∈ l :=
  List.mem_of_find?_eq_some h

lemma findIdle_idle {l : List Job} {j : Job} (h : findIdle l = some j) :
    j.status = JobStatus.idle := by
  have := List.find?_some h
  simpa using this

lemma findIdle_index :
    ∀ (l : List Job) (j : Job), findIdle l = some j →
      ∃ k, l[k]? = some j ∧
        ∀ (m : Nat) (jm : Job), m < k → l[m]? = some jm →
          jm.status ≠ JobStatus.idle := by
  intro l
  induction l with
  | nil =>
    intro j h
    simp [findIdle] at h
  | cons a t ih =>
    intro j h
    rw [findIdle_cons] at h
    by_cases ha : a.status = JobStatus.idle
    · rw [if_pos ha] at h
      cases h
      exact ⟨0, by simp, by intro m jm hm; omega⟩
    · rw [if_neg ha] at h
      obtain ⟨k, hk, hmin⟩ := ih j h
      refine ⟨k + 1, by simpa using hk, ?_⟩
      intro m jm hm hjm
      cases m with
      | zero =>
        simp at hjm
        subst hjm
        exact ha
      | succ m =>
        simp only [List.getElem?_cons_succ] at hjm
        exact hmin m jm (Nat.lt_of_succ_lt_succ hm) hjm

lemma processingCount_nil : processingCount [] = 0 := rfl

lemma processingCount_cons (a : Job) (l : List Job) :
    processingCount (a :: l) =
      (if a.status = JobStatus.processing then 1 else 0) + processingCount l := by
  by_cases ha : a.status = JobStatus.processing <;>
    simp [processingCount, List.filter_cons, ha, Nat.add_comm]

lemma processingCount_append (l1 l2 : List Job) :
    processingCount (l1 ++ l2) = processingCount l1 + processingCount l2 := by
  simp [processingCount, List.filter_append]

lemma processingCount_map_le (l : List Job) (f : Job → Job)
    (hf : ∀ j, (f j).status = j.status ∨ (f j).status ≠ JobStatus.processing) :
    processingCount (l.map f) ≤ processingCount l := by
  induction l with
  | nil => simp
  | cons a t ih =>
    rw [List.map_cons, processingCount_cons, processingCount_cons]
    have h1 : (if (f a).status = JobStatus.processing then 1 else 0)
        ≤ (if a.status = JobStatus.processing then 1 else 0) := by
      rcases hf a with h | h
      · rw [h]
      · simp [h]
    exact Nat.add_le_add h1 ih

lemma processingCount_map_congr (l : List Job) (f : Job → Job)
    (hf : ∀ j ∈ l, (f j).status = j.status) :
    processingCount (l.map f) = processingCount l := by
  induction l with
  | nil => simp
  | cons a t ih =>
    rw [List.map_cons, processingCount_cons, processingCount_cons,
      hf a (List.mem_cons_self a t)]
    rw [ih (fun j hj => hf j (List.mem_cons_of_mem a hj))]

lemma processingCount_map_updFn_le (l : List Job) (i : String) (u : JobUpdate) :
    processingCount (l.map (updFn i u)) ≤
      processingCount l + (l.filter (fun j => decide (j.id = i))).length := by
  induction l with
  | nil => simp
  | cons a t ih =>
    by_cases ha : a.id = i
    · have hfc : (a :: t).filter (fun j => decide (j.id = i))
          = a :: t.filter (fun j => decide (j.id = i)) := by
        simp [List.filter_cons, ha]
      rw [List.map_cons, processingCount_cons, processingCount_cons, hfc,
        List.length_cons]
      have hb : (if (updFn i u a).status = JobStatus.processing then 1 else 0) ≤ 1 := by
        split <;> omega
      omega
    · have hfc : (a :: t).filter (fun j => decide (j.id = i))
          = t.filter (fun j => decide (j.id = i)) := by
        simp [List.filter_cons, ha]
      rw [List.map_cons, processingCount_cons, processingCount_cons, hfc,
        updFn_of_ne i u a ha]
      omega

lemma nodup_filter_id_length (l : List Job) (h : (l.map Job.id).Nodup)
    (i : String) : (l.filter (fun j => decide (j.id = i))).length ≤ 1 := by
  induction l with
  | nil => simp
  | cons a t ih =>
    rw [List.map_cons, List.nodup_cons] at h
    by_cases ha : a.id = i
    · have hnil : t.filter (fun j => decide (j.id = i)) = [] := by
        rw [List.filter_eq_nil_iff]
        intro j hj hji
        have hji' : j.id = a.id := by
          have hd := of_decide_eq_true hji
          rw [hd, ha]
        exact h.1 (hji' ▸ List.mem_map_of_mem Job.id hj)
      have hfc : (a :: t).filter (fun j => decide (j.id = i)) = [a] := by
        simp [List.filter_cons, ha, hnil]
      rw [hfc]
      simp
    · have hfc : (a :: t).filter (fun j => decide (j.id = i))
          = t.filter (fun j => decide (j.id = i)) := by
        simp [List.filter_cons, ha]
      rw [hfc]
      exact ih h.2

lemma JobOk_mkNewJob (p : JobParams) (newId : String) (now : Nat) :
    JobOk (mkNewJob p newId now) := by
  simp [JobOk, mkNewJob]

lemma JobOk_duplicated (j : Job) (newId : String) (now : Nat) :
    JobOk (duplicatedJob j newId now) := by
  simp [JobOk, duplicatedJob]

lemma JobOk_launch (j : Job) (now : Nat) (h : JobOk j)
    (hi : j.status = JobStatus.idle) : JobOk (mergeJob j (launchUpdate now)) := by
  obtain ⟨hv, he⟩ := h.1 hi
  simp [JobOk, mergeJob, launchUpdate, hv, he]

lemma JobOk_complete (j : Job) (res : String) (h : JobOk j)
    (hp : j.status = JobStatus.processing) :
    JobOk (mergeJob j
      { status := some JobStatus.completed,
        videoUri := some (some res),
        progressMessage := some (some "Completed") }) := by
  obtain ⟨hv, he⟩ := h.2.1 hp
  simp [JobOk, mergeJob, hv, he]

lemma JobOk_fail (j : Job) (m : String) (h : JobOk j)
    (hp : j.status = JobStatus.processing) :
    JobOk (mergeJob j
      { status := some JobStatus.failed, error := some (some m) }) := by
  obtain ⟨hv, he⟩ := h.2.1 hp
  simp [JobOk, mergeJob, hv, he]

lemma inv_append (s : AppState) (h : Inv s) (j : Job) (hok : JobOk j)
    (hst : j.status ≠ JobStatus.processing)
    (hfresh : j.id ∉ s.jobs.map Job.id) :
    Inv { s with jobs := s.jobs ++ [j] } := by
  obtain ⟨h1, h2, h3, h4, h5⟩ := h
  refine ⟨?_, ?_, h3, ?_, ?_⟩
  · intro x hx
    rcases List.mem_append.mp hx with hx | hx
    · exact h1 x hx
    · rw [List.mem_singleton] at hx
      subst hx
      exact hok
  · show ((s.jobs ++ [j]).map Job.id).Nodup
    rw [List.map_append]
    rw [List.nodup_append]
    refine ⟨h2, List.nodup_singleton _, ?_⟩
    intro a ha hb
    rw [List.map_singleton, List.mem_singleton] at hb
    subst hb
    exact hfresh ha
  · intro i hi
    obtain ⟨x, hx, hxi, hxs⟩ := h4 i hi
    exact ⟨x, List.mem_append_left _ hx, hxi, hxs⟩
  · show processingCount (s.jobs ++ [j]) ≤ MAX_CONCURRENT_JOBS
    rw [processingCount_append]
    have hz : processingCount [j] = 0 := by
      simp [processingCount, List.filter_cons, hst]
    rw [hz, Nat.add_zero]
    exact h5

lemma inv_uiRemove (s : AppState) (h : Inv s) (i : String) :
    Inv (uiRemoveJob s i) := by
  unfold uiRemoveJob
  cases hf : s.jobs.find? (fun j => decide (j.id = i)) with
  | none => exact h
  | some j0 =>
    show Inv (if canRemove j0.status = true then removeJob s i else s)
    by_cases hc : canRemove j0.status
    · rw [if_pos hc]
      obtain ⟨h1, h2, h3, h4, h5⟩ := h
      have hj0 : j0 ∈ s.jobs := List.mem_of_find?_eq_some hf
      have hps := List.find?_some hf
      have hj0i : j0.id = i := of_decide_eq_true hps
      refine ⟨?_, ?_, h3, ?_, ?_⟩
      · intro x hx
        exact h1 x (List.mem_of_mem_filter hx)
      · show ((s.jobs.filter (fun j => decide (j.id ≠ i))).map Job.id).Nodup
        exact h2.sublist ((List.filter_sublist s.jobs).map Job.id)
      · intro i' hi'
        obtain ⟨x, hx, hxi, hxs⟩ := h4 i' hi'
        have hxne : x.id ≠ i := by
          intro hxe
          have hx0 : x = j0 :=
            nodup_id_unique s.jobs h2 x hx j0 hj0 (by rw [hxe, hj0i])
          rw [hx0] at hxs
          rw [hxs] at hc
          exact absurd hc (by decide)
        refine ⟨x, ?_, hxi, hxs⟩
        show x ∈ s.jobs.filter (fun j => decide (j.id ≠ i))
        rw [List.mem_filter]
        exact ⟨hx, decide_eq_true hxne⟩
      · show processingCount (s.jobs.filter (fun j => decide (j.id ≠ i)))
            ≤ MAX_CONCURRENT_JOBS
        refine Nat.le_trans ?_ h5
        exact ((List.filter_sublist s.jobs).filter
          (fun j => decide (j.status = JobStatus.processing))).length_le
    · rw [if_neg hc]
      exact h

lemma inv_tick (s : AppState) (h : Inv s) (now : Nat) :
    Inv (tickLaunch s now) := by
  unfold tickLaunch
  by_cases hg : s.isQueueRunning && s.apiKeyReady
  · rw [if_pos hg]
    by_cases hcap : MAX_CONCURRENT_JOBS ≤ processingCount s.jobs
    · rw [if_pos hcap]
      exact h
    · rw [if_neg hcap]
      cases hf : findIdle s.jobs with
      | none => exact h
      | some j =>
        obtain ⟨h1, h2, h3, h4, h5⟩ := h
        have hjmem : j ∈ s.jobs := findIdle_mem hf
        have hjidle : j.status = JobStatus.idle := findIdle_idle hf
        have hnotin : j.id ∉ s.inflight := by
          intro hin
          obtain ⟨x, hx, hxi, hxs⟩ := h4 j.id hin
          have hxj : x = j := nodup_id_unique s.jobs h2 x hx j hjmem hxi
          rw [hxj, hjidle] at hxs
          exact absurd hxs (by simp)
        refine ⟨?_, ?_, ?_, ?_, ?_⟩
        · intro x hx
          obtain ⟨a, ha, rfl⟩ := List.mem_map.mp hx
          by_cases hai : a.id = j.id
          · have haj : a = j := nodup_id_unique s.jobs h2 a ha j hjmem hai
            rw [updFn_of_eq _ _ _ hai, haj]
            exact JobOk_launch j now (h1 j hjmem) hjidle
          · rw [updFn_of_ne _ _ _ hai]
            exact h1 a ha
        · show ((s.jobs.map (updFn j.id (launchUpdate now))).map Job.id).Nodup
          rw [map_updFn_ids]
          exact h2
        · exact List.Nodup.cons hnotin h3
        · intro i' hi'
          rcases List.mem_cons.mp hi' with rfl | hi'
          · refine ⟨updFn j.id (launchUpdate now) j, List.mem_map_of_mem _ hjmem, ?_, ?_⟩
            · exact updFn_id j.id (launchUpdate now) j
            · rw [updFn_of_eq _ _ _ rfl]
              rfl
          · obtain ⟨x, hx, hxi, hxs⟩ := h4 i' hi'
            have hxne : x.id ≠ j.id := by
              intro he
              have hxj : x = j := nodup_id_unique s.jobs h2 x hx j hjmem he
              rw [hxj, hjidle] at hxs
              exact absurd hxs (by simp)
            refine ⟨x, ?_, hxi, hxs⟩
            have hrw : updFn j.id (launchUpdate now) x = x := updFn_of_ne _ _ _ hxne
            rw [← hrw]
            exact List.mem_map_of_mem _ hx
        · show processingCount (s.jobs.map (updFn j.id (launchUpdate now)))
              ≤ MAX_CONCURRENT_JOBS
          have hle := processingCount_map_updFn_le s.jobs j.id (launchUpdate now)
          have hone := nodup_filter_id_length s.jobs h2 j.id
          omega
  · rw [if_neg hg]
    exact h

lemma inv_progress (s : AppState) (h : Inv s) (i : String) (msg : String) :
    Inv (updateJob s i (progressUpdate msg)) := by
  obtain ⟨h1, h2, h3, h4, h5⟩ := h
  have hstat : ∀ x : Job, (updFn i (progressUpdate msg) x).status = x.status := by
    intro x
    unfold updFn
    split <;> rfl
  refine ⟨?_, ?_, h3, ?_, ?_⟩
  · intro x hx
    obtain ⟨a, ha, rfl⟩ := List.mem_map.mp hx
    by_cases hai : a.id = i
    · rw [updFn_of_eq _ _ _ hai]
      have hok := h1 a ha
      unfold JobOk at hok ⊢
      simpa [mergeJob, progressUpdate] using hok
    · rw [updFn_of_ne _ _ _ hai]
      exact h1 a ha
  · show ((s.jobs.map (updFn i (progressUpdate msg))).map Job.id).Nodup
    rw [map_updFn_ids]
    exact h2
  · intro i' hi'
    obtain ⟨x, hx, hxi, hxs⟩ := h4 i' hi'
    refine ⟨updFn i (progressUpdate msg) x, List.mem_map_of_mem _ hx, ?_, ?_⟩
    · rw [updFn_id]
      exact hxi
    · rw [hstat]
      exact hxs
  · show processingCount (s.jobs.map (updFn i (progressUpdate msg)))
        ≤ MAX_CONCURRENT_JOBS
    rw [processingCount_map_congr s.jobs _ (fun x _ => hstat x)]
    exact h5

lemma inflight_processing (s : AppState) (h2 : (s.jobs.map Job.id).Nodup)
    (h4 : ∀ i ∈ s.inflight,
      ∃ j, j ∈ s.jobs ∧ j.id = i ∧ j.status = JobStatus.processing)
    (i : String) (hi : i ∈ s.inflight) :
    ∀ x ∈ s.jobs, x.id = i → x.status = JobStatus.processing := by
  intro x hx hxi
  obtain ⟨jp, hjp, hjpi, hjps⟩ := h4 i hi
  have hxj : x = jp := nodup_id_unique s.jobs h2 x hx jp hjp (by rw [hxi, hjpi])
  rw [hxj]
  exact hjps

lemma inv_finishLike (s : AppState) (h : Inv s) (i : String)
    (hi : i ∈ s.inflight) (u : JobUpdate) (r k : Bool)
    (hu : ∀ j : Job, j.status = JobStatus.processing → JobOk j →
      JobOk (mergeJob j u))
    (hs : ∀ j : Job, (mergeJob j u).status ≠ JobStatus.processing) :
    Inv { jobs := s.jobs.map (updFn i u),
          apiKeyReady := k,
          isQueueRunning := r,
          inflight := s.inflight.erase i } := by
  obtain ⟨h1, h2, h3, h4, h5⟩ := h
  have hproc := inflight_processing s h2 h4 i hi
  refine ⟨?_, ?_, h3.erase i, ?_, ?_⟩
  · intro x hx
    obtain ⟨a, ha, rfl⟩ := List.mem_map.mp hx
    by_cases hai : a.id = i
    · rw [updFn_of_eq _ _ _ hai]
      exact hu a (hproc a ha hai) (h1 a ha)
    · rw [updFn_of_ne _ _ _ hai]
      exact h1 a ha
  · show ((s.jobs.map (updFn i u)).map Job.id).Nodup
    rw [map_updFn_ids]
    exact h2
  · intro i' hi'
    have hii : i' ≠ i ∧ i' ∈ s.inflight := (h3.mem_erase_iff).mp hi'
    obtain ⟨x, hx, hxi, hxs⟩ := h4 i' hii.2
    have hxne : x.id ≠ i := by
      rw [hxi]
      exact hii.1
    refine ⟨x, ?_, hxi, hxs⟩
    have hrw : updFn i u x = x := updFn_of_ne _ _ _ hxne
    rw [← hrw]
    exact List.mem_map_of_mem _ hx
  · show processingCount (s.jobs.map (updFn i u)) ≤ MAX_CONCURRENT_JOBS
    refine Nat.le_trans (processingCount_map_le s.jobs _ ?_) h5
    intro j
    unfold updFn
    split
    · exact Or.inr (hs j)
    · exact Or.inl rfl

lemma inv_finishSuccess (s : AppState) (h : Inv s) (i : String)
    (hi : i ∈ s.inflight) (res : String) : Inv (finishSuccess s i res) := by
  refine inv_finishLike s h i hi _ s.isQueueRunning s.apiKeyReady ?_ ?_
  · intro j hp hok
    exact JobOk_complete j res hok hp
  · intro j
    simp [mergeJob]

lemma inv_finishFailure (s : AppState) (h : Inv s) (i : String)
    (hi : i ∈ s.inflight) (raw : String) : Inv (finishFailure s i raw) := by
  unfold finishFailure
  by_cases ha : isAuthError (effectiveMessage raw)
  · rw [if_pos ha]
    refine inv_finishLike s h i hi _ false false ?_ ?_
    · intro j hp hok
      exact JobOk_fail j AUTH_REWRITE_MSG hok hp
    · intro j
      simp [mergeJob]
  · rw [if_neg ha]
    refine inv_finishLike s h i hi _ s.isQueueRunning s.apiKeyReady ?_ ?_
    · intro j hp hok
      exact JobOk_fail j (effectiveMessage raw) hok hp
    · intro j
      simp [mergeJob]

lemma inv_step {s s' : AppState} (h : Inv s) (hs : Step s s') : Inv s' := by
  cases hs with
  | apiKeySelected => exact h
  | queueToggled => exact h
  | jobAdded p newId now hfresh =>
    exact inv_append s h (mkNewJob p newId now) (JobOk_mkNewJob p newId now)
      (by simp [mkNewJob]) hfresh
  | jobRemoved i => exact inv_uiRemove s h i
  | jobDuplicated j hj newId now hfresh =>
    exact inv_append s h (duplicatedJob j newId now)
      (JobOk_duplicated j newId now) (by simp [duplicatedJob]) hfresh
  | tick now => exact inv_tick s h now
  | progressReported i msg hin => exact inv_progress s h i msg
  | generateSucceeded i remoteUri apiKey hin =>
    exact inv_finishSuccess s h i hin (successResult remoteUri apiKey)
  | generateFailed i raw hin => exact inv_finishFailure s h i hin raw

/-- Every reachable state satisfies the global invariant. -/
theorem reachable_inv {s : AppState} (h : Reachable s) : Inv s := by
  induction h with
  | init =>
    refine ⟨?_, ?_, ?_, ?_, ?_⟩ <;> simp [initialState, processingCount]
  | step _ hs ih => exact inv_step ih hs

lemma removeJob_jobs (s : AppState) (i : String) :
    (removeJob s i).jobs = s.jobs.filter (fun j => decide (j.id ≠ i)) := rfl

lemma updateJob_jobs (s : AppState) (i : String) (u : JobUpdate) :
    (updateJob s i u).jobs = s.jobs.map (updFn i u) := rfl

lemma finishSuccess_jobs (s : AppState) (i : String) (res : String) :
    (finishSuccess s i res).jobs = s.jobs.map (updFn i
      { status := some JobStatus.completed,
        videoUri := some (some res),
        progressMessage := some (some "Completed") }) := rfl

lemma tickLaunch_cases (s : AppState) (now : Nat) :
    tickLaunch s now = s ∨
    ∃ j, findIdle s.jobs = some j ∧
      (tickLaunch s now).jobs = s.jobs.map (updFn j.id (launchUpdate now)) ∧
      (tickLaunch s now).inflight = j.id :: s.inflight := by
  unfold tickLaunch
  by_cases hg : s.isQueueRunning && s.apiKeyReady
  · rw [if_pos hg]
    by_cases hcap : MAX_CONCURRENT_JOBS ≤ processingCount s.jobs
    · rw [if_pos hcap]
      exact Or.inl rfl
    · rw [if_neg hcap]
      cases hf : findIdle s.jobs with
      | none => exact Or.inl rfl
      | some j => exact Or.inr ⟨j, rfl, rfl, rfl⟩
  · rw [if_neg hg]
    exact Or.inl rfl

lemma tickLaunch_not_running (s : AppState) (now : Nat)
    (h : s.isQueueRunning = false) : tickLaunch s now = s := by
  unfold tickLaunch
  rw [h]
  simp

/-- A sample submission used by the concrete states below. -/
def demoParams : JobParams :=
  { prompt := "a drone shot of a futuristic city",
    inputType := InputType.text,
    model := VeoModel.fast,
    aspect := Aspect.a16x9,
    imageFile := none }

/-- A freshly submitted job. -/
def demoJob : Job := mkNewJob demoParams "job-1" 0

/-- The initial state after one submission. -/
def demoState : AppState := addJob initialState demoJob

lemma demoState_reachable : Reachable demoState :=
  Reachable.step Reachable.init
    (Step.jobAdded initialState demoParams "job-1" 0 (by simp [initialState]))

lemma demoJob_mem : demoJob ∈ demoState.jobs := by
  simp [demoState, addJob, initialState]

/-- Two idle jobs in a running, key-ready state. -/
def demoJobA : Job := mkNewJob demoParams "a" 0

/-- The second of the two idle jobs. -/
def demoJobB : Job := mkNewJob demoParams "b" 1

/-- A running state holding the two idle jobs in insertion order. -/
def demoRunState : AppState :=
  { jobs := [demoJobA, demoJobB],
    apiKeyReady := true,
    isQueueRunning := true,
    inflight := [] }

/-- A job in mid-generation. -/
def demoProcessing : Job :=
  { demoJob with
    id := "p",
    status := JobStatus.processing,
    startTime := some 2,
    progressMessage := some "Initializing..." }

/-- A running state with one in-flight job. -/
def c2State : AppState :=
  { jobs := [demoProcessing],
    apiKeyReady := true,
    isQueueRunning := true,
    inflight := ["p"] }

/-- A running state with one in-flight job and one idle job. -/
def demoMixedState : AppState :=
  { jobs := [demoProcessing, demoJobB],
    apiKeyReady := true,
    isQueueRunning := true,
    inflight := ["p"] }

/-- A completed job holding a video result, as in the spec's
duplication scenario. -/
def demoCompleted : Job :=
  { demoJob with
    status := JobStatus.completed,
    videoUri := some "X",
    progressMessage := some "Completed",
    startTime := some 3 }

/-- A job whose requested resolution is 1080p. -/
def c6Job : Job := { demoJob with resolution := Resolution.r1080p }

/-- C1: under every sequence of job additions, removals, duplications,
scheduler ticks and generation outcomes, every reachable state has at
most MAX_CONCURRENT_JOBS jobs with status Processing, and that cap
is 4. -/
theorem C1_processing_at_most_max (s : AppState) (h : Reachable s) :
    processingCount s.jobs ≤ MAX_CONCURRENT_JOBS ∧ MAX_CONCURRENT_JOBS = 4 :=
  ⟨(reachable_inv h).2.2.2.2, rfl⟩

/-- C1 witness: the cap evaluated in a concrete reachable state. -/
theorem C1_witness :
    processingCount demoState.jobs ≤ MAX_CONCURRENT_JOBS ∧
    MAX_CONCURRENT_JOBS = 4 :=
  C1_processing_at_most_max demoState demoState_reachable

/-- C4: in every reachable state no job has both videoUri and error
set; a set videoUri occurs only on a Completed job (entered from
Processing on success) and a set error only on a Failed job (entered
from Processing on failure). -/
theorem C4_result_error_exclusive (s : AppState) (h : Reachable s)
    (j : Job) (hj : j ∈ s.jobs) :
    ¬(j.videoUri.isSome ∧ j.error.isSome) ∧
    (j.videoUri.isSome → j.status = JobStatus.completed) ∧
    (j.error.isSome → j.status = JobStatus.failed) := by
  obtain ⟨hid, hpr, hco, hfa, hpe⟩ := (reachable_inv h).1 j hj
  cases hst : j.status with
  | idle =>
    obtain ⟨hv, he⟩ := hid hst
    simp [hv, he]
  | pending => exact absurd hst hpe
  | processing =>
    obtain ⟨hv, he⟩ := hpr hst
    simp [hv, he]
  | completed =>
    obtain ⟨hv, he⟩ := hco hst
    simp [hv, he]
  | failed =>
    obtain ⟨hv, he⟩ := hfa hst
    simp [hv, he]

/-- C4 witness: the exclusion evaluated on a concrete job of a concrete
reachable state. -/
theorem C4_witness : ¬(demoJob.videoUri.isSome ∧ demoJob.error.isSome) :=
  (C4_result_error_exclusive demoState demoState_reachable demoJob demoJob_mem).1

/-- C5: duplicating any job appends a job carrying the supplied fresh
id and fresh timestamp, status Idle, no videoUri, no error, no
progressMessage, no startTime, and the source job's prompt, inputType,
model, aspect ratio and resolution; the fresh id differs from every
stored job's id. -/
theorem C5_duplicate_fresh_idle (s : AppState) (job : Job) (newId : String)
    (now : Nat) (hfresh : newId ∉ s.jobs.map Job.id) :
    (duplicateJob s job newId now).jobs
        = s.jobs ++ [duplicatedJob job newId now] ∧
    (duplicatedJob job newId now).id = newId ∧
    (duplicatedJob job newId now).createdAt = now ∧
    (duplicatedJob job newId now).status = JobStatus.idle ∧
    (duplicatedJob job newId now).videoUri = none ∧
    (duplicatedJob job newId now).error = none ∧
    (duplicatedJob job newId now).progressMessage = none ∧
    (duplicatedJob job newId now).startTime = none ∧
    (duplicatedJob job newId now).prompt = job.prompt ∧
    (duplicatedJob job newId now).inputType = job.inputType ∧
    (duplicatedJob job newId now).model = job.model ∧
    (duplicatedJob job newId now).aspect = job.aspect ∧
    (duplicatedJob job newId now).resolution = job.resolution ∧
    ∀ x ∈ s.jobs, (duplicatedJob job newId now).id ≠ x.id := by
  refine ⟨rfl, rfl, rfl, rfl, rfl, rfl, rfl, rfl, rfl, rfl, rfl, rfl, rfl, ?_⟩
  intro x hx he
  apply hfresh
  have hm : x.id ∈ s.jobs.map Job.id := List.mem_map_of_mem Job.id hx
  have he' : newId = x.id := he
  rw [he']
  exact hm

/-- C5 witness: duplicating the completed job with videoResult "X"
yields an Idle job with the derived fields cleared and the prompt
kept. -/
theorem C5_witness :
    (duplicatedJob demoCompleted "job-2" 9).status = JobStatus.idle ∧
    (duplicatedJob demoCompleted "job-2" 9).videoUri = none ∧
    (duplicatedJob demoCompleted "job-2" 9).error = none ∧
    (duplicatedJob demoCompleted "job-2" 9).startTime = none ∧
    (duplicatedJob demoCompleted "job-2" 9).prompt = demoCompleted.prompt := by
  have h := C5_duplicate_fresh_idle demoState demoCompleted "job-2" 9
    (by simp [demoState, addJob, initialState, demoJob, mkNewJob])
  exact ⟨h.2.2.2.1, h.2.2.2.2.1, h.2.2.2.2.2.1, h.2.2.2.2.2.2.2.1,
    h.2.2.2.2.2.2.2.2.1⟩

/-- C3: a tick keeps the store's length, raises the Processing count by
at most one, any job it changes was the first Idle job in store order
(everything before it non-Idle) and becomes Processing, and a job that
is Idle behind an earlier Idle job is left exactly as it was — so
launch order is FIFO over insertion order. -/
theorem C3_tick_launches_first_idle (s : AppState) (now : Nat)
    (hids : (s.jobs.map Job.id).Nodup) :
    (tickLaunch s now).jobs.length = s.jobs.length ∧
    processingCount (tickLaunch s now).jobs ≤ processingCount s.jobs + 1 ∧
    (∀ (k : Nat) (jk jk' : Job), s.jobs[k]? = some jk →
      (tickLaunch s now).jobs[k]? = some jk' → jk' ≠ jk →
      jk.status = JobStatus.idle ∧ jk'.status = JobStatus.processing ∧
      ∀ (m : Nat) (jm : Job), m < k → s.jobs[m]? = some jm →
        jm.status ≠ JobStatus.idle) ∧
    (∀ (a b : Nat) (ja jb : Job), a < b → s.jobs[a]? = some ja →
      s.jobs[b]? = some jb → ja.status = JobStatus.idle →
      jb.status = JobStatus.idle → (tickLaunch s now).jobs[b]? = some jb) := by
  have hnd : s.jobs.Nodup := List.Nodup.of_map Job.id hids
  rcases tickLaunch_cases s now with hcase | ⟨j, hf, hjobs, _⟩
  · rw [hcase]
    refine ⟨rfl, Nat.le_succ _, ?_, ?_⟩
    · intro k jk jk' hk hk' hne
      rw [hk] at hk'
      cases hk'
      exact absurd rfl hne
    · intro a b ja jb _ _ hb _ _
      exact hb
  · have hjmem : j ∈ s.jobs := findIdle_mem hf
    have hjidle : j.status = JobStatus.idle := findIdle_idle hf
    obtain ⟨k0, hk0, hmin⟩ := findIdle_index s.jobs j hf
    refine ⟨?_, ?_, ?_, ?_⟩
    · rw [hjobs, List.length_map]
    · rw [hjobs]
      have hle := processingCount_map_updFn_le s.jobs j.id (launchUpdate now)
      have hone := nodup_filter_id_length s.jobs hids j.id
      omega
    · intro k jk jk' hk hk' hne
      rw [hjobs, List.getElem?_map, hk] at hk'
      cases hk'
      by_cases hai : jk.id = j.id
      · have hkj : jk = j :=
          nodup_id_unique s.jobs hids jk (List.getElem?_mem hk) j hjmem hai
        subst hkj
        refine ⟨hjidle, ?_, ?_⟩
        · rw [updFn_of_eq _ _ _ hai]
          rfl
        · have hkk0 : k = k0 := nodup_get_unique s.jobs hnd k k0 jk hk hk0
          subst hkk0
          exact hmin
      · rw [updFn_of_ne _ _ _ hai] at hne
        exact absurd rfl hne
    · intro a b ja jb hab ha hb hja hjb
      rw [hjobs, List.getElem?_map, hb]
      have hbne : jb.id ≠ j.id := by
        intro he
        have hbj : jb = j :=
          nodup_id_unique s.jobs hids jb (List.getElem?_mem hb) j hjmem he
        subst hbj
        have hbk0 : b = k0 := nodup_get_unique s.jobs hnd b k0 jb hb hk0
        subst hbk0
        exact hmin a ja hab ha hja
      show some (updFn j.id (launchUpdate now) jb) = some jb
      rw [updFn_of_ne _ _ _ hbne]

/-- C3 witness: with two idle jobs "a" then "b" in a running state, the
tick leaves the later idle job "b" untouched (it launches the first). -/
theorem C3_witness :
    (tickLaunch demoRunState 5).jobs[1]? = some demoJobB :=
  (C3_tick_launches_first_idle demoRunState 5 (by decide)).2.2.2
    0 1 demoJobA demoJobB (by omega) rfl rfl rfl rfl

/-- C8: through the UI boundary, removing a Processing job is a no-op
on the whole state, while removing an Idle, Completed or Failed job
removes it — the job is gone and every remaining job is an original one
with a different id. -/
theorem C8_remove_rejected_while_processing (s : AppState) (j : Job)
    (hj : j ∈ s.jobs) (hids : (s.jobs.map Job.id).Nodup) :
    (j.status = JobStatus.processing → uiRemoveJob s j.id = s) ∧
    ((j.status = JobStatus.idle ∨ j.status = JobStatus.completed ∨
        j.status = JobStatus.failed) →
      j ∉ (uiRemoveJob s j.id).jobs ∧
      ∀ x ∈ (uiRemoveJob s j.id).jobs, x ∈ s.jobs ∧ x.id ≠ j.id) := by
  have hfind : s.jobs.find? (fun x => decide (x.id = j.id)) = some j :=
    find_id_of_mem s.jobs hids j hj
  constructor
  · intro hp
    unfold uiRemoveJob
    rw [hfind]
    show (if canRemove j.status = true then removeJob s j.id else s) = s
    rw [hp]
    rw [if_neg (by decide)]
  · intro hst
    have hcr : canRemove j.status = true := by
      rcases hst with h | h | h <;> rw [h] <;> decide
    unfold uiRemoveJob
    rw [hfind]
    show j ∉ (if canRemove j.status = true then removeJob s j.id else s).jobs ∧
      ∀ x ∈ (if canRemove j.status = true then removeJob s j.id else s).jobs,
        x ∈ s.jobs ∧ x.id ≠ j.id
    rw [if_pos hcr]
    constructor
    · intro hmem
      rw [removeJob_jobs, List.mem_filter] at hmem
      have := hmem.2
      simp at this
    · intro x hx
      rw [removeJob_jobs, List.mem_filter] at hx
      refine ⟨hx.1, ?_⟩
      have := hx.2
      rw [decide_eq_true_eq] at this
      exact this

/-- C8 witness: in a concrete mixed state, removing the Processing job
"p" changes nothing, and removing the Idle job "b" deletes it. -/
theorem C8_witness :
    uiRemoveJob demoMixedState "p" = demoMixedState ∧
    demoJobB ∉ (uiRemoveJob demoMixedState "b").jobs := by
  constructor
  · exact (C8_remove_rejected_while_processing demoMixedState demoProcessing
      (by simp [demoMixedState]) (by decide)).1 rfl
  · exact ((C8_remove_rejected_while_processing demoMixedState demoJobB
      (by simp [demoMixedState]) (by decide)).2 (Or.inl rfl)).1

/-- C9: updateJob on an id absent from the store leaves the state
entirely unchanged (and raises nothing, being a total function); on a
present id it merges the given fields into exactly the matching
position and preserves every other job and all other state fields. -/
theorem C9_update_absent_noop (s : AppState) (i : String) (u : JobUpdate) :
    ((∀ x ∈ s.jobs, x.id ≠ i) → updateJob s i u = s) ∧
    (updateJob s i u).jobs.length = s.jobs.length ∧
    (∀ (k : Nat) (x : Job), s.jobs[k]? = some x → x.id ≠ i →
      (updateJob s i u).jobs[k]? = some x) ∧
    (∀ (k : Nat) (x : Job), s.jobs[k]? = some x → x.id = i →
      (updateJob s i u).jobs[k]? = some (mergeJob x u)) ∧
    (updateJob s i u).apiKeyReady = s.apiKeyReady ∧
    (updateJob s i u).isQueueRunning = s.isQueueRunning ∧
    (updateJob s i u).inflight = s.inflight := by
  refine ⟨?_, ?_, ?_, ?_, rfl, rfl, rfl⟩
  · intro hab
    unfold updateJob
    rw [map_updFn_eq_self s.jobs i u hab]
  · rw [updateJob_jobs, List.length_map]
  · intro k x hk hne
    rw [updateJob_jobs, List.getElem?_map, hk]
    show some (updFn i u x) = some x
    rw [updFn_of_ne _ _ _ hne]
  · intro k x hk he
    rw [updateJob_jobs, List.getElem?_map, hk]
    show some (updFn i u x) = some (mergeJob x u)
    rw [updFn_of_eq _ _ _ he]

/-- C9 witness: updating an id that is not in the concrete store is a
no-op on the whole state. -/
theorem C9_witness :
    updateJob demoState "no-such-id" (progressUpdate "hi") = demoState :=
  (C9_update_absent_noop demoState "no-such-id" (progressUpdate "hi")).1
    (by simp [demoState, addJob, initialState, demoJob, mkNewJob])

/-- C2 counterexample: the credential-missing failure thrown by
generateVideoForJob itself carries the message "API Key not found.
Please select a key.", which matches neither case-sensitive signature
("Requested entity was not found" / "API key").  Handling it leaves the
Authentication Gate ready and the queue running, and surfaces the raw
message instead of the rewritten credential message — refuting the
claim for the credential-missing member of the authentication class. -/
theorem C2_counterexample :
    isAuthError (effectiveMessage MISSING_KEY_MSG) = false ∧
    (finishFailure c2State "p" MISSING_KEY_MSG).apiKeyReady = true ∧
    (finishFailure c2State "p" MISSING_KEY_MSG).isQueueRunning = true ∧
    (finishFailure c2State "p" MISSING_KEY_MSG).jobs
      = [{ demoProcessing with
            status := JobStatus.failed,
            error := some MISSING_KEY_MSG }] := by
  refine ⟨by decide, rfl, rfl, by decide⟩

/-- C2 amended: for every job whose generation fails with a message
that (after the empty-message fallback) contains one of the two
signatures "Requested entity was not found" or "API key" — which covers
invalid and expired credentials but not the app's own credential-missing
message — the handler clears the Authentication Gate readiness, stops
the queue's running mode (so subsequent ticks launch nothing), and
fails the job with the rewritten credential message. -/
theorem C2_auth_failure_pauses (s : AppState) (i : String) (raw : String)
    (h : isAuthError (effectiveMessage raw) = true) :
    (finishFailure s i raw).apiKeyReady = false ∧
    (finishFailure s i raw).isQueueRunning = false ∧
    (∀ x ∈ (finishFailure s i raw).jobs, x.id = i →
      x.status = JobStatus.failed ∧ x.error = some AUTH_REWRITE_MSG) ∧
    (∀ now, tickLaunch (finishFailure s i raw) now = finishFailure s i raw) := by
  have hff : finishFailure s i raw
      = updateJob
          { s with inflight := s.inflight.erase i,
                   apiKeyReady := false,
                   isQueueRunning := false }
          i
          { status := some JobStatus.failed,
            error := some (some AUTH_REWRITE_MSG) } := by
    unfold finishFailure
    rw [if_pos h]
  rw [hff]
  refine ⟨rfl, rfl, ?_, ?_⟩
  · intro x hx hxi
    rw [updateJob_jobs] at hx
    obtain ⟨a, ha, rfl⟩ := List.mem_map.mp hx
    by_cases hai : a.id = i
    · rw [updFn_of_eq _ _ _ hai]
      exact ⟨rfl, rfl⟩
    · rw [updFn_id] at hxi
      exact absurd hxi hai
  · intro now
    exact tickLaunch_not_running _ now rfl

/-- C2 witness: a real invalid-key message matching the "API key"
signature pauses the gate and the queue. -/
theorem C2_witness :
    (finishFailure c2State "p"
      "API key not valid. Please pass a valid API key.").apiKeyReady = false ∧
    (finishFailure c2State "p"
      "API key not valid. Please pass a valid API key.").isQueueRunning = false := by
  have h := C2_auth_failure_pauses c2State "p"
    "API key not valid. Please pass a valid API key." (by decide)
  exact ⟨h.1, h.2.1⟩

/-- C7 counterexample: a non-authentication failure whose underlying
message is empty is surfaced as the placeholder "Unknown error", not
verbatim — refuting the claim for message-less errors. -/
theorem C7_counterexample :
    isAuthError (effectiveMessage "") = false ∧
    (finishFailure c2State "p" "").jobs
      = [{ demoProcessing with
            status := JobStatus.failed,
            error := some "Unknown error" }] ∧
    ("Unknown error" : String) ≠ "" := by
  refine ⟨by decide, by decide, by decide⟩

/-- C7 amended: a failure whose (fallback-substituted) message matches
no signature is handled per job: the flags are untouched, every job at
a position whose id differs is left exactly as it was, the matching job
fails carrying the effective message — which is the underlying message
verbatim whenever that message is non-empty, and "Unknown error"
otherwise. -/
theorem C7_request_error_isolated (s : AppState) (i : String) (raw : String)
    (h : isAuthError (effectiveMessage raw) = false) :
    (finishFailure s i raw).apiKeyReady = s.apiKeyReady ∧
    (finishFailure s i raw).isQueueRunning = s.isQueueRunning ∧
    (∀ (k : Nat) (x : Job), s.jobs[k]? = some x → x.id ≠ i →
      (finishFailure s i raw).jobs[k]? = some x) ∧
    (∀ x ∈ (finishFailure s i raw).jobs, x.id = i →
      x.status = JobStatus.failed ∧ x.error = some (effectiveMessage raw)) ∧
    (raw ≠ "" → effectiveMessage raw = raw) := by
  have hff : finishFailure s i raw
      = updateJob
          { s with inflight := s.inflight.erase i }
          i
          { status := some JobStatus.failed,
            error := some (some (effectiveMessage raw)) } := by
    unfold finishFailure
    rw [if_neg (by simp [h])]
  rw [hff]
  refine ⟨rfl, rfl, ?_, ?_, ?_⟩
  · intro k x hk hne
    rw [updateJob_jobs, List.getElem?_map]
    show Option.map _ s.jobs[k]? = some x
    rw [hk]
    show some (updFn i _ x) = some x
    rw [updFn_of_ne _ _ _ hne]
  · intro x hx hxi
    rw [updateJob_jobs] at hx
    obtain ⟨a, ha, rfl⟩ := List.mem_map.mp hx
    by_cases hai : a.id = i
    · rw [updFn_of_eq _ _ _ hai]
      exact ⟨rfl, rfl⟩
    · rw [updFn_id] at hxi
      exact absurd hxi hai
  · intro hraw
    unfold effectiveMessage
    rw [if_neg hraw]

/-- C7 witness: a concrete network failure touches neither flag. -/
theorem C7_witness :
    (finishFailure demoMixedState "p" "Network timeout").apiKeyReady
        = demoMixedState.apiKeyReady ∧
    (finishFailure demoMixedState "p" "Network timeout").isQueueRunning
        = demoMixedState.isQueueRunning := by
  have h := C7_request_error_isolated demoMixedState "p" "Network timeout"
    (by decide)
  exact ⟨h.1, h.2.1⟩

/-- C6 counterexample: a job requesting 1080p is submitted with the
constant "720p", so the submitted resolution is not the job's
resolution — refuting the claim's resolution conjunct. -/
theorem C6_counterexample :
    (buildGenRequest c6Job).resolution ≠ c6Job.resolution.str ∧
    c6Job.resolution.str = "1080p" ∧
    (buildGenRequest c6Job).resolution = "720p" := by
  refine ⟨by decide, rfl, rfl⟩

/-- C6 amended: the request submitted for a job carries the job's model
identifier, its aspect ratio and (in the appropriate input mode) its
prompt and image bytes plus mime type, but the resolution field is
always the constant "720p" regardless of the job's resolution. -/
theorem C6_request_uses_job_params (job : Job) :
    (buildGenRequest job).model = job.model.str ∧
    (buildGenRequest job).aspect = job.aspect.str ∧
    (buildGenRequest job).numberOfVideos = 1 ∧
    (buildGenRequest job).resolution = "720p" ∧
    (∀ f, job.inputType = InputType.image → job.imageFile = some f →
      (buildGenRequest job).imageBytes = some f.base64Data ∧
      (buildGenRequest job).imageMime = some f.mimeType ∧
      (buildGenRequest job).prompt
        = (if job.prompt = "" then none else some job.prompt)) ∧
    ((job.inputType = InputType.text ∨ job.imageFile = none) →
      (buildGenRequest job).prompt = some job.prompt ∧
      (buildGenRequest job).imageBytes = none ∧
      (buildGenRequest job).imageMime = none) := by
  cases hit : job.inputType <;> cases hif : job.imageFile <;>
    simp [buildGenRequest, hit, hif]

/-- C6 witness: the amended statement evaluated on a concrete image
job. -/
theorem C6_witness :
    (buildGenRequest { demoJob with
        inputType := InputType.image,
        imageFile := some { base64Data := "QUJD", mimeType := "image/png",
                            fname := "frame.png" } }).imageBytes
      = some "QUJD" := by
  have h := C6_request_uses_job_params { demoJob with
    inputType := InputType.image,
    imageFile := some { base64Data := "QUJD", mimeType := "image/png",
                        fname := "frame.png" } }
  exact (h.2.2.2.2.1 _ rfl rfl).1

/-- C10: the result stored on a successfully completed job is not the
remote operation's video URI itself but that URI with the literal text
"&key=" and the current API key appended. -/
theorem C10_key_embedded_in_result (s : AppState) (i : String)
    (remoteUri apiKey : String) :
    successResult remoteUri apiKey = remoteUri ++ "&key=" ++ apiKey ∧
    successResult remoteUri apiKey ≠ remoteUri ∧
    (∀ x ∈ (finishSuccess s i (successResult remoteUri apiKey)).jobs,
      x.id = i → x.videoUri = some (remoteUri ++ "&key=" ++ apiKey)) := by
  refine ⟨rfl, ?_, ?_⟩
  · intro he
    have hlen := congrArg String.length he
    have h5 : ("&key=" : String).length = 5 := rfl
    rw [successResult, String.length_append, String.length_append, h5] at hlen
    omega
  · intro x hx hxi
    rw [finishSuccess_jobs] at hx
    obtain ⟨a, ha, rfl⟩ := List.mem_map.mp hx
    by_cases hai : a.id = i
    · rw [updFn_of_eq _ _ _ hai]
      rfl
    · rw [updFn_id] at hxi
      exact absurd hxi hai

/-- C10 witness: a concrete stored result differs from the remote URI
and embeds the key. -/
theorem C10_witness :
    successResult "https://dl/video1" "SECRET" ≠ "https://dl/video1" :=
  (C10_key_embedded_in_result c2State "p" "https://dl/video1" "SECRET").2.1

end VeoBatch
